import Mathlib

/-!
Verification of the quota-loading pipeline (`load_quota_to_mysql.py`).

The Python source is shallowly embedded below:
* dates (`YYYYMMDD` strings) are parsed/printed with explicit Gregorian
  calendar arithmetic, mirroring `datetime.strptime`, `timedelta(days=1)`
  and `strftime('%Y%m%d')`;
* a pandas `DataFrame` of quota rows becomes a `List Row` (the Chinese
  column names are transliterated: 代码 → `code`, 类别1 → `cat1`,
  类别2 → `cat2`, 型号 → `model`, 加工工序 → `process`, 定额 → `price`);
* Python `dict`s become association lists in insertion order, with
  first-match lookup (keys are unique when built by `dict(zip ...)`
  after the duplicate check) and last-wins overwriting where the source
  builds a dict by repeated assignment;
* `raise ValueError` becomes `Except`, carrying the data the message
  interpolates.
-/

deriving instance DecidableEq for Except

/--
Python's string comparison, on the code-point lists: lexicographic, a
proper prefix precedes its extensions.  (Python compares strings by
code point; this executable relation is used wherever the source sorts
or compares strings.)
-/
def charListLE : List Char → List Char → Bool
  | [], _ => true
  | _ :: _, [] => false
  | a :: as, b :: bs =>
    if a < b then true
    else if b < a then false
    else charListLE as bs

/-- Python `s <= t` on strings. -/
def pyStrLE (s t : String) : Bool :=
  charListLE s.data t.data

/-- A proleptic-Gregorian calendar date, as `datetime` uses. -/
structure Date where
  year : Nat
  month : Nat
  day : Nat
deriving DecidableEq

/-- Gregorian leap-year rule (as implemented by Python's `datetime`). -/
def isLeapYear (y : Nat) : Bool :=
  (y % 4 == 0 && y % 100 != 0) || y % 400 == 0

/-- Number of days of month `m` in year `y`. -/
def daysInMonth (y m : Nat) : Nat :=
  if m == 2 then (if isLeapYear y then 29 else 28)
  else if m == 4 || m == 6 || m == 9 || m == 11 then 30
  else 31

/-- Fold a digit list into the `Nat` it denotes. -/
def digitsToNat (cs : List Char) : Nat :=
  cs.foldl (fun acc c => acc * 10 + (c.toNat - 48)) 0

/-- Decimal value of an ASCII digit character. -/
def digitVal (c : Char) : Nat :=
  c.toNat - 48

/--
Model of the day pattern of `_strptime` for `%d`, the regex
`3[01]|[12]\d|0[1-9]|[1-9]`: the first alternative (in order) matching a
prefix of `cs`, returned as (day value, characters consumed); digits are
modeled as ASCII, as elsewhere in this file.
-/
def matchDay (cs : List Char) : Option (Nat × Nat) :=
  match cs with
  | d1 :: d2 :: _ =>
    if d1 = '3' && (d2 = '0' || d2 = '1') then some (30 + digitVal d2, 2)
    else if (d1 = '1' || d1 = '2') && d2.isDigit then some (10 * digitVal d1 + digitVal d2, 2)
    else if d1 = '0' && ('1' ≤ d2 && d2 ≤ '9') then some (digitVal d2, 2)
    else if '1' ≤ d1 && d1 ≤ '9' then some (digitVal d1, 1)
    else none
  | [d1] =>
    if '1' ≤ d1 && d1 ≤ '9' then some (digitVal d1, 1) else none
  | [] => none

/--
Model of the one-digit month alternative `[1-9]` of `%m` followed by the
day pattern; returns (month, day, characters consumed).
-/
def matchMonth1 (cs : List Char) : Option (Nat × Nat × Nat) :=
  match cs with
  | c1 :: rest1 =>
    if '1' ≤ c1 && c1 ≤ '9' then
      match matchDay rest1 with
      | some (d, n) => some (digitVal c1, d, 1 + n)
      | none => none
    else none
  | [] => none

/--
Model of the month pattern of `_strptime` for `%m`, the regex
`1[0-2]|0[1-9]|[1-9]`, followed by the day pattern: the backtracking
engine tries the month alternatives in order and commits to the first
one after which the day pattern also matches; returns
(month, day, total characters consumed).
-/
def matchMonthDay (cs : List Char) : Option (Nat × Nat × Nat) :=
  match cs with
  | c1 :: c2 :: rest2 =>
    if c1 = '1' && (c2 = '0' || c2 = '1' || c2 = '2') then
      match matchDay rest2 with
      | some (d, n) => some (10 + digitVal c2, d, 2 + n)
      | none => matchMonth1 cs
    else if c1 = '0' && ('1' ≤ c2 && c2 ≤ '9') then
      match matchDay rest2 with
      | some (d, n) => some (digitVal c2, d, 2 + n)
      | none => none
    else matchMonth1 cs
  | cs => matchMonth1 cs

/--
Model of `datetime.strptime(s, '%Y%m%d')` as `_strptime` implements it:
`%Y` matches exactly four digits, `%m` matches `1[0-2]|0[1-9]|[1-9]`
(one or two digits) and `%d` matches `3[01]|[12]\d|0[1-9]|[1-9]`, so
six- and seven-digit strings such as `2023011` parse too.  The engine
takes the first match in alternation order; `strptime` then rejects
unconverted trailing data, and the `datetime` constructor validates the
result (`MINYEAR = 1`, day within the month).  `none` models the
`ValueError` raised on any of these failures.
-/
def parseDate (s : String) : Option Date :=
  match s.data with
  | y1 :: y2 :: y3 :: y4 :: rest =>
    if y1.isDigit && y2.isDigit && y3.isDigit && y4.isDigit then
      let y := digitsToNat [y1, y2, y3, y4]
      match matchMonthDay rest with
      | some (m, d, n) =>
        if n = rest.length then
          if 1 ≤ y ∧ d ≤ daysInMonth y m then some ⟨y, m, d⟩ else none
        else none
      | none => none
    else none
  | _ => none

/--
Model of `next_date - timedelta(days=1)`: the previous calendar day;
`none` models the `OverflowError` that `datetime` raises when the
result would precede `date.min` — exactly on 0001-01-01.
-/
def predDate (dt : Date) : Option Date :=
  if dt = ⟨1, 1, 1⟩ then none
  else if 1 < dt.day then some ⟨dt.year, dt.month, dt.day - 1⟩
  else if 1 < dt.month then some ⟨dt.year, dt.month - 1, daysInMonth dt.year (dt.month - 1)⟩
  else some ⟨dt.year - 1, 12, 31⟩

/-- Decimal rendering of `n` left-padded with zeros to width `w`. -/
def padNat (w n : Nat) : String :=
  let s := toString n
  String.mk (List.replicate (w - s.length) '0') ++ s

/-- Model of `date.strftime('%Y%m%d')`. -/
def formatDate (dt : Date) : String :=
  padNat 4 dt.year ++ padNat 2 dt.month ++ padNat 2 dt.day

/--
One row of the SQLite `quota` table as read by
`get_quota_with_obsolete_date` (columns
代码, 类别1, 类别2, 型号, 加工工序, 定额, effected_from).
-/
structure Row where
  code : String
  cat1 : String
  cat2 : String
  model : String
  process : String
  price : Int
  effected_from : String
deriving DecidableEq

/-- A `Row` with the `obsolete_date` column that `calculate_obsolete_date` adds. -/
structure RowOut where
  base : Row
  obsolete_date : String
deriving DecidableEq

/--
Model of `group.sort_values('effected_from')`: sort the rows of one group by their
`effected_from` string (stable; `YYYYMMDD` strings compare the same way
lexicographically and chronologically).
-/
def sortByEff (group : List Row) : List Row :=
  group.mergeSort (fun a b => pyStrLE a.effected_from b.effected_from)

/--
The exceptions the obsolete-date loop can raise: the `ValueError` of
`strptime` on a malformed date (carrying the offending string its
message interpolates), and the `OverflowError` of
`next_date - timedelta(days=1)` on 0001-01-01 (whose message carries no
input data).
-/
inductive CalcError
  | parseError (s : String)
  | overflowError
deriving DecidableEq

/--
The assignment loop of `calculate_obsolete_date`, run on the already
sorted group: each record but the last gets the next record's
`effected_from` minus one day (a malformed next date raises the
`strptime` `ValueError`; a next date of 0001-01-01 raises the
subtraction's `OverflowError`); the last record — and the sole record
of a singleton group — gets the sentinel `'99991231'`.
-/
def assignObs : List Row → Except CalcError (List RowOut)
  | [] => .ok []
  | [r] => .ok [⟨r, "99991231"⟩]
  | r :: next :: rest =>
    match parseDate next.effected_from with
    | none => .error (.parseError next.effected_from)
    | some dt =>
      match predDate dt with
      | none => .error .overflowError
      | some pd =>
        match assignObs (next :: rest) with
        | .error e => .error e
        | .ok out => .ok (⟨r, formatDate pd⟩ :: out)

/--
Model of `calculate_obsolete_date(group)`: sort the group by `effected_from`,
then add the `obsolete_date` column.
-/
def calculate_obsolete_date (group : List Row) : Except CalcError (List RowOut) :=
  assignObs (sortByEff group)

/-- The grouping key (类别1, 类别2, 型号, 加工工序) used by `df.groupby`. -/
def groupKey (r : Row) : String × String × String × String :=
  (r.cat1, r.cat2, r.model, r.process)

/-- The rows of the group with key `k`, in input order (as `groupby` hands them over). -/
def groupRows (rows : List Row) (k : String × String × String × String) : List Row :=
  rows.filter (fun r => decide (groupKey r = k))

/-- Model of `calculate_obsolete_date` applied to the group with key `k`. -/
def groupOut (rows : List Row) (k : String × String × String × String) :
    Except CalcError (List RowOut) :=
  calculate_obsolete_date (groupRows rows k)

/-- Run `calculate_obsolete_date` on each listed group; the first date error aborts. -/
def collectGroups (rows : List Row) :
    List (String × String × String × String) → Except CalcError (List (List RowOut))
  | [] => .ok []
  | k :: ks =>
    match groupOut rows k with
    | .error e => .error e
    | .ok out =>
      match collectGroups rows ks with
      | .error e => .error e
      | .ok rest => .ok (out :: rest)

/--
Model of `df.groupby(group_columns).apply(calculate_obsolete_date)` in
`get_quota_with_obsolete_date`, viewed as the multiset of produced
rows (the subsequent sort by 代码 only rearranges them, so content is a
multiset).  Groups are the maximal sets of rows sharing `groupKey`,
each processed by `calculate_obsolete_date`; the iteration order over
groups affects only which group's date error surfaces first, never the
multiset produced on success.
-/
def pipeline (rows : List Row) : Except CalcError (Multiset RowOut) :=
  match collectGroups rows ((rows.map groupKey).dedup) with
  | .error e => .error e
  | .ok outs => .ok (outs.map Multiset.ofList).sum

/-- Python `dict` lookup `d.get(k)` on a dict with unique keys (first match). -/
def dictGet (d : List (String × String)) (k : String) : Option String :=
  (d.find? (fun p => p.1 == k)).map (fun p => p.2)

/--
Lookup in the reversed dict `{v: k for k, v in d.items()}` of `main`:
when several pairs share the value `c`, the comprehension overwrites, so
the key of the *last* such pair wins.
-/
def reverseGet (d : List (String × String)) (c : String) : Option String :=
  (d.reverse.find? (fun p => p.2 == c)).map (fun p => p.1)

/-- One row of a reference table (`cat1_code`/`name` etc.): a code and a name. -/
structure DictTableRow where
  code : String
  name : String
deriving DecidableEq

/-- The `ValueError`s of `get_cat1_dict` and its three siblings. -/
inductive DictError
  | emptyTable
  | duplicateNames (names : List String)
deriving DecidableEq

/--
Model of `df[df.duplicated(subset=['name'], keep=False)]['name'].unique()`:
the distinct names occurring at least twice.  (`pandas.unique` lists
them in order of first occurrence; `dedup` here may list them in a
different order — everything below depends only on which names appear,
never on their order.)
-/
def duplicatedNames (rows : List DictTableRow) : List String :=
  let names := rows.map (fun r => r.name)
  (names.filter (fun n => 2 ≤ names.count n)).dedup

/--
Model of `get_cat1_dict` / `get_cat2_dict` / `get_model_dict` / `get_process_dict`
(the four are textually identical up to table and column names): reject
an empty table, then reject duplicate names, then build `{name: code}`.
-/
def get_code_dict (rows : List DictTableRow) : Except DictError (List (String × String)) :=
  if rows.isEmpty then .error .emptyTable
  else
    let dups := duplicatedNames rows
    if dups.isEmpty then .ok (rows.map (fun r => (r.name, r.code)))
    else .error (.duplicateNames dups)

/--
One row of the MySQL `quotas` frame built by `map_dataframe_to_quotas`.
The code columns hold what `dict.get` returned (`None` for a missing
key), as in the source, where the frame is fully built before the
missing-key check fires.
-/
structure QuotasRow where
  cat1_code : Option String
  cat2_code : Option String
  model_code : Option String
  process_code : Option String
  unit_price : Int
  effective_date : String
  obsolete_date : String
  created_by : Nat
  created_at : String
deriving DecidableEq

/--
The per-row column construction of `map_dataframe_to_quotas`:
`cat1_code = cat1_dict.get(类别1)` and so on; `定额`, `effected_from`
(as text) and `obsolete_date` pass through; `created_by = 1`;
`created_at` is the one timestamp taken for the whole batch.
-/
def resolveRow (d1 d2 d3 d4 : List (String × String)) (now : String) (r : RowOut) : QuotasRow :=
  { cat1_code := dictGet d1 r.base.cat1
    cat2_code := dictGet d2 r.base.cat2
    model_code := dictGet d3 r.base.model
    process_code := dictGet d4 r.base.process
    unit_price := r.base.price
    effective_date := r.base.effected_from
    obsolete_date := r.obsolete_date
    created_by := 1
    created_at := now }

/--
The `ValueError` of `map_dataframe_to_quotas`: its message interpolates,
for each domain with gaps, `sorted(missing_…)` — the sorted set of the
batch's unresolved labels of that domain (an empty list for a domain
with no gaps, which the message omits).
-/
structure MapError where
  missing_cat1 : List String
  missing_cat2 : List String
  missing_model : List String
  missing_proc : List String
deriving DecidableEq

/--
Model of `sorted(missing)` where `missing` is the set of values of one input
column that the domain's dict lacks.
-/
def missingSorted (vals : List String) (d : List (String × String)) : List String :=
  ((vals.filter (fun v => dictGet d v == none)).dedup).mergeSort pyStrLE

/--
Model of `map_dataframe_to_quotas(df, cat1_dict, cat2_dict, model_dict,
process_dict)`: build the output frame with `dict.get` per column (the
`missing_…` sets are still empty when the `apply` lambdas run, so the
guard in them never bites), scan every column of the whole batch for
unresolved labels, and only then raise one error carrying all four
domains' gaps; succeed with the built frame when there are none.
-/
def map_dataframe_to_quotas (df : List RowOut) (d1 d2 d3 d4 : List (String × String))
    (now : String) : Except MapError (List QuotasRow) :=
  let quotas := df.map (resolveRow d1 d2 d3 d4 now)
  let m1 := missingSorted (df.map (fun r => r.base.cat1)) d1
  let m2 := missingSorted (df.map (fun r => r.base.cat2)) d2
  let m3 := missingSorted (df.map (fun r => r.base.model)) d3
  let m4 := missingSorted (df.map (fun r => r.base.process)) d4
  if m1 = [] ∧ m2 = [] ∧ m3 = [] ∧ m4 = [] then .ok quotas
  else .error ⟨m1, m2, m3, m4⟩

/-- The errors `main` can propagate from steps 2–3. -/
inductive PipeError
  | cat1Dict (e : DictError)
  | cat2Dict (e : DictError)
  | modelDict (e : DictError)
  | procDict (e : DictError)
  | mapping (e : MapError)
deriving DecidableEq

/-- Whether a pipeline error arose while loading a dictionary (step 2). -/
def PipeError.isDictLoad : PipeError → Bool
  | .mapping _ => false
  | _ => true

/--
Steps 2–3 of `main`: load the four dictionaries in order (each raising
on an empty table or duplicate names), then resolve the batch.
-/
def main_resolve (df : List RowOut) (t1 t2 t3 t4 : List DictTableRow)
    (now : String) : Except PipeError (List QuotasRow) :=
  match get_code_dict t1 with
  | .error e => .error (.cat1Dict e)
  | .ok d1 =>
    match get_code_dict t2 with
    | .error e => .error (.cat2Dict e)
    | .ok d2 =>
      match get_code_dict t3 with
      | .error e => .error (.modelDict e)
      | .ok d3 =>
        match get_code_dict t4 with
        | .error e => .error (.procDict e)
        | .ok d4 =>
          match map_dataframe_to_quotas df d1 d2 d3 d4 now with
          | .error e => .error (.mapping e)
          | .ok q => .ok q

/-- The characters Excel forbids in sheet names, as in `sanitize_sheet_name`. -/
def invalidSheetChars : List Char := ['\\', '/', '?', '*', '[', ']', ':']

/-- Python `str.strip()`: drop whitespace from both ends. -/
def pyStrip (cs : List Char) : List Char :=
  ((cs.dropWhile Char.isWhitespace).reverse.dropWhile Char.isWhitespace).reverse

/--
Model of `sanitize_sheet_name(name)`: delete the forbidden characters
(`re.sub(r'[\\/\?\*\[\]:]', '', name)`), strip surrounding whitespace,
truncate to 31 characters, and fall back to `'Sheet'` if nothing is left.
-/
def sanitize_sheet_name (name : String) : String :=
  let cleaned := name.data.filter (fun c => !(invalidSheetChars.contains c))
  let stripped := pyStrip cleaned
  let truncated := stripped.take 31
  if truncated.isEmpty then "Sheet" else String.mk truncated

/-- Model of `model_code.split('-')[0]`: the part before the first hyphen. -/
def headBeforeHyphen (s : String) : List Char :=
  s.data.takeWhile (fun c => c ≠ '-')

/--
Python `int(str)` on a decimal literal: surrounding whitespace is
ignored, an optional single sign precedes one or more digits; anything
else raises (`none` here).
-/
def pyInt (cs : List Char) : Option Int :=
  match pyStrip cs with
  | '+' :: ds =>
    if ds ≠ [] ∧ ds.all Char.isDigit then some (digitsToNat ds) else none
  | '-' :: ds =>
    if ds ≠ [] ∧ ds.all Char.isDigit then some (-(digitsToNat ds : Int)) else none
  | ds =>
    if ds ≠ [] ∧ ds.all Char.isDigit then some (digitsToNat ds) else none

/--
Model of `get_model_sort_key(model_code)`: `int` of the part before the first
hyphen; on `ValueError`/`AttributeError` return `0`.
-/
def get_model_sort_key (model_code : String) : Int :=
  match pyInt (headBeforeHyphen model_code) with
  | some n => n
  | none => 0

/--
The value `get_process_sort_key` returns: the raw process code when no
`seq_dict` was supplied, a sequence number from the table, or
`float('inf')` (`atEnd`) when the table has no entry for the column.
-/
inductive ProcKey
  | byCode (code : String)
  | bySeq (n : Int)
  | atEnd
deriving DecidableEq

/--
Lookup in the dict built by `get_column_seq_dict`, which assigns
`seq_dict[key] = seq` row by row, so for a duplicated key the last
row's `seq` wins.
-/
def seqGet (d : List ((String × String × String) × Int))
    (k : String × String × String) : Option Int :=
  (d.reverse.find? (fun p => p.1 == k)).map (fun p => p.2)

/--
Model of `get_process_sort_key(process_code, cat1, cat2, process_name, seq_dict)`:
with no table, the raw code; otherwise the sequence under
`(cat1, cat2, process_name)`, else under `(cat1, cat2, process_code)`,
else `float('inf')`.
-/
def get_process_sort_key (process_code cat1 cat2 process_name : String)
    (seq_dict : Option (List ((String × String × String) × Int))) : ProcKey :=
  match seq_dict with
  | none => .byCode process_code
  | some d =>
    match seqGet d (cat1, cat2, process_name) with
    | some n => .bySeq n
    | none =>
      match seqGet d (cat1, cat2, process_code) with
      | some n => .bySeq n
      | none => .atEnd

/--
The comparison `sorted` applies to the keys: strings compare
lexicographically (the no-table case, where every key is `byCode`);
numbers compare numerically with `float('inf')` greatest (the
with-table case, where every key is `bySeq` or `atEnd`).  A `byCode`
key never meets a `bySeq` key in one call, so those cases are vacuous.
-/
def procKeyLE : ProcKey → ProcKey → Bool
  | _, .atEnd => true
  | .atEnd, _ => false
  | .byCode a, .byCode b => pyStrLE a b
  | .bySeq a, .bySeq b => decide (a ≤ b)
  | .byCode _, .bySeq _ => false
  | .bySeq _, .byCode _ => false


/-! ## Lemmas about the assignment loop -/

theorem predDate_eq_none_iff (dt : Date) : predDate dt = none ↔ dt = ⟨1, 1, 1⟩ := by
  unfold predDate
  by_cases h : dt = (⟨1, 1, 1⟩ : Date)
  · simp [h]
  · rw [if_neg h]
    constructor
    · intro hc
      split_ifs at hc
    · intro hc
      exact absurd hc h

theorem assignObs_ok_map_base : ∀ (l : List Row) (out : List RowOut),
    assignObs l = .ok out → out.map RowOut.base = l
  | [], out, h => by
      simp only [assignObs, Except.ok.injEq] at h; subst h; rfl
  | [r], out, h => by
      simp only [assignObs, Except.ok.injEq] at h; subst h; rfl
  | r :: next :: rest, out, h => by
      simp only [assignObs] at h
      cases hp : parseDate next.effected_from with
      | none => simp [hp] at h
      | some dt =>
        simp only [hp] at h
        cases hpd : predDate dt with
        | none => simp [hpd] at h
        | some pd =>
          simp only [hpd] at h
          cases hr : assignObs (next :: rest) with
          | error e => simp [hr] at h
          | ok out' =>
            simp only [hr, Except.ok.injEq] at h
            subst h
            have ih := assignObs_ok_map_base (next :: rest) out' hr
            simp [ih]

theorem assignObs_isOk_iff : ∀ (l : List Row),
    (∃ out, assignObs l = .ok out) ↔
      ∀ r ∈ l.tail, ∃ dt, parseDate r.effected_from = some dt ∧ dt ≠ ⟨1, 1, 1⟩
  | [] => by simp [assignObs]
  | [r] => by simp [assignObs]
  | r :: next :: rest => by
      constructor
      · rintro ⟨out, h⟩
        simp only [assignObs] at h
        cases hp : parseDate next.effected_from with
        | none => simp [hp] at h
        | some dt =>
          simp only [hp] at h
          cases hpd : predDate dt with
          | none => simp [hpd] at h
          | some pd =>
            simp only [hpd] at h
            cases hr : assignObs (next :: rest) with
            | error e => simp [hr] at h
            | ok out' =>
              have htail := (assignObs_isOk_iff (next :: rest)).mp ⟨out', hr⟩
              intro s hs
              simp only [List.tail_cons] at hs
              rcases List.mem_cons.mp hs with hs | hs
              · subst hs
                refine ⟨dt, hp, ?_⟩
                intro hdt
                rw [hdt, (predDate_eq_none_iff _).mpr rfl] at hpd
                exact absurd hpd (by simp)
              · exact htail s (by simpa using hs)
      · intro hv
        obtain ⟨dt, hp, hdt⟩ := hv next (by simp)
        have hpdex : ∃ pd, predDate dt = some pd := by
          cases hq : predDate dt with
          | none => exact absurd ((predDate_eq_none_iff dt).mp hq) hdt
          | some pd => exact ⟨pd, rfl⟩
        obtain ⟨pd, hpd⟩ := hpdex
        obtain ⟨out', hr⟩ := (assignObs_isOk_iff (next :: rest)).mpr
          (fun s hs => hv s (by
            simp only [List.tail_cons] at hs ⊢
            exact List.mem_cons_of_mem _ hs))
        exact ⟨⟨r, formatDate pd⟩ :: out', by simp [assignObs, hp, hpd, hr]⟩

theorem assignObs_error_spec : ∀ (l : List Row) (e : CalcError),
    assignObs l = .error e →
      (∃ s, e = .parseError s ∧ parseDate s = none ∧ ∃ r ∈ l.tail, r.effected_from = s) ∨
      (e = .overflowError ∧ ∃ r ∈ l.tail, parseDate r.effected_from = some ⟨1, 1, 1⟩)
  | [], e, h => by simp [assignObs] at h
  | [r], e, h => by simp [assignObs] at h
  | r :: next :: rest, e, h => by
      simp only [assignObs] at h
      cases hp : parseDate next.effected_from with
      | none =>
        simp only [hp, Except.error.injEq] at h
        subst h
        exact Or.inl ⟨next.effected_from, rfl, hp, next, by simp, rfl⟩
      | some dt =>
        simp only [hp] at h
        cases hpd : predDate dt with
        | none =>
          simp only [hpd, Except.error.injEq] at h
          subst h
          have hdt := (predDate_eq_none_iff dt).mp hpd
          subst hdt
          exact Or.inr ⟨rfl, next, by simp, hp⟩
        | some pd =>
          simp only [hpd] at h
          cases hr : assignObs (next :: rest) with
          | error e' =>
            simp only [hr, Except.error.injEq] at h
            subst h
            rcases assignObs_error_spec (next :: rest) e' hr with
              ⟨s, hes, hps, q, hq, hqs⟩ | ⟨hes, q, hq, hqp⟩
            · refine Or.inl ⟨s, hes, hps, q, ?_, hqs⟩
              simp only [List.tail_cons] at hq ⊢
              exact List.mem_cons_of_mem _ hq
            · refine Or.inr ⟨hes, q, ?_, hqp⟩
              simp only [List.tail_cons] at hq ⊢
              exact List.mem_cons_of_mem _ hq
          | ok out' => simp [hr] at h

theorem assignObs_ok_obsolete : ∀ (l : List Row) (out : List RowOut),
    assignObs l = .ok out →
    (∀ (i : Nat) (hi : i + 1 < out.length) (dt pd : Date),
        parseDate ((out.get ⟨i + 1, hi⟩).base.effected_from) = some dt →
        predDate dt = some pd →
        (out.get ⟨i, Nat.lt_of_succ_lt hi⟩).obsolete_date = formatDate pd) ∧
    (∀ hne : out ≠ [], (out.getLast hne).obsolete_date = "99991231")
  | [], out, h => by
      simp only [assignObs, Except.ok.injEq] at h
      subst h
      refine ⟨?_, ?_⟩
      · intro i hi; simp at hi
      · intro hne; simp at hne
  | [r], out, h => by
      simp only [assignObs, Except.ok.injEq] at h
      subst h
      refine ⟨?_, ?_⟩
      · intro i hi; simp at hi
      · intro hne; rfl
  | r :: next :: rest, out, h => by
      simp only [assignObs] at h
      cases hp : parseDate next.effected_from with
      | none => simp [hp] at h
      | some dt0 =>
        simp only [hp] at h
        cases hpd : predDate dt0 with
        | none => simp [hpd] at h
        | some pd0 =>
          simp only [hpd] at h
          cases hr : assignObs (next :: rest) with
          | error e => simp [hr] at h
          | ok out' =>
            simp only [hr, Except.ok.injEq] at h
            subst h
            have ih := assignObs_ok_obsolete (next :: rest) out' hr
            have hbase := assignObs_ok_map_base (next :: rest) out' hr
            cases out' with
            | nil => simp at hbase
            | cons o t =>
              have hb0 : o.base = next := by
                simp only [List.map_cons, List.cons.injEq] at hbase
                exact hbase.1
              refine ⟨?_, ?_⟩
              · intro i hi dt pd hparse hpred
                cases i with
                | zero =>
                  have hparse' : parseDate o.base.effected_from = some dt := hparse
                  rw [hb0, hp] at hparse'
                  simp only [Option.some.injEq] at hparse'
                  subst hparse'
                  rw [hpd] at hpred
                  simp only [Option.some.injEq] at hpred
                  subst hpred
                  rfl
                | succ j =>
                  have hj : j + 1 < (o :: t).length := by simp at hi ⊢; omega
                  exact ih.1 j hj dt pd hparse hpred
              · intro hne
                rw [List.getLast_cons (List.cons_ne_nil o t)]
                exact ih.2 (List.cons_ne_nil o t)

/-! ## Lemmas about sorting and grouping -/

theorem charListLE_trans : ∀ (x y z : List Char),
    charListLE x y = true → charListLE y z = true → charListLE x z = true
  | [], _, _, _, _ => rfl
  | a :: as, [], _, h1, _ => by simp [charListLE] at h1
  | a :: as, b :: bs, [], _, h2 => by simp [charListLE] at h2
  | a :: as, b :: bs, c :: cs, h1, h2 => by
    by_cases hab : a < b
    · by_cases hbc : b < c
      · simp [charListLE, lt_trans hab hbc]
      · by_cases hcb : c < b
        · simp [charListLE, hbc, hcb] at h2
        · have hbc' : b = c := le_antisymm (not_lt.mp hcb) (not_lt.mp hbc)
          subst hbc'
          simp [charListLE, hab]
    · by_cases hba : b < a
      · simp [charListLE, hab, hba] at h1
      · have hab' : a = b := le_antisymm (not_lt.mp hba) (not_lt.mp hab)
        subst hab'
        simp only [charListLE, lt_irrefl, if_false] at h1
        by_cases hac : a < c
        · simp [charListLE, hac]
        · by_cases hca : c < a
          · simp [charListLE, hac, hca] at h2
          · have hac' : a = c := le_antisymm (not_lt.mp hca) (not_lt.mp hac)
            subst hac'
            simp only [charListLE, lt_irrefl, if_false] at h2 ⊢
            exact charListLE_trans as bs cs h1 h2

theorem charListLE_total : ∀ (x y : List Char),
    charListLE x y = true ∨ charListLE y x = true
  | [], _ => Or.inl rfl
  | _ :: _, [] => Or.inr rfl
  | a :: as, b :: bs => by
    by_cases hab : a < b
    · left; simp [charListLE, hab]
    · by_cases hba : b < a
      · right; simp [charListLE, hba]
      · have hab' : a = b := le_antisymm (not_lt.mp hba) (not_lt.mp hab)
        subst hab'
        rcases charListLE_total as bs with h | h
        · left; simp [charListLE, lt_irrefl, h]
        · right; simp [charListLE, lt_irrefl, h]

theorem charListLE_antisymm : ∀ (x y : List Char),
    charListLE x y = true → charListLE y x = true → x = y
  | [], [], _, _ => rfl
  | [], _ :: _, _, h2 => by simp [charListLE] at h2
  | _ :: _, [], h1, _ => by simp [charListLE] at h1
  | a :: as, b :: bs, h1, h2 => by
    by_cases hab : a < b
    · simp [charListLE, lt_asymm hab, hab] at h2
    · by_cases hba : b < a
      · simp [charListLE, hab, hba] at h1
      · have hab' : a = b := le_antisymm (not_lt.mp hba) (not_lt.mp hab)
        subst hab'
        simp only [charListLE, lt_irrefl, if_false] at h1 h2
        rw [charListLE_antisymm as bs h1 h2]

theorem pyStrLE_antisymm (s t : String) (h1 : pyStrLE s t = true)
    (h2 : pyStrLE t s = true) : s = t := by
  have h := charListLE_antisymm s.data t.data h1 h2
  cases s
  cases t
  exact congrArg String.mk h

theorem sortByEff_sorted (l : List Row) :
    (sortByEff l).Pairwise (fun a b => pyStrLE a.effected_from b.effected_from = true) := by
  simp only [sortByEff]
  apply List.sorted_mergeSort
  · intro a b c hab hbc
    exact charListLE_trans _ _ _ hab hbc
  · intro a b
    rcases charListLE_total a.effected_from.data b.effected_from.data with h | h
    · simp [pyStrLE, h]
    · simp [pyStrLE, h]

theorem sortByEff_perm (l : List Row) : (sortByEff l).Perm l :=
  List.mergeSort_perm l _

/--
Two sorted lists that are permutations of each other are equal, provided
the sort key (`effected_from`) determines the element.  This is the heart
of the determinism analysis: with tied keys and distinct records, the two
sorted lists may genuinely differ.
-/
theorem sorted_perm_eq : ∀ (l₁ l₂ : List Row), l₁.Perm l₂ →
    l₁.Pairwise (fun a b => pyStrLE a.effected_from b.effected_from = true) →
    l₂.Pairwise (fun a b => pyStrLE a.effected_from b.effected_from = true) →
    (∀ a ∈ l₁, ∀ b ∈ l₁, a.effected_from = b.effected_from → a = b) →
    l₁ = l₂
  | [], l₂, hp, _, _, _ => hp.nil_eq
  | a :: t₁, l₂, hp, hs₁, hs₂, hdet => by
    cases l₂ with
    | nil => exact absurd hp.symm.nil_eq (by simp)
    | cons b t₂ =>
      have hab : a ∈ b :: t₂ := hp.mem_iff.mp (by simp)
      have hba : b ∈ a :: t₁ := hp.mem_iff.mpr (by simp)
      have hle1 : pyStrLE a.effected_from b.effected_from = true := by
        rcases List.mem_cons.mp hba with hb | hb
        · rw [hb]
          rcases charListLE_total a.effected_from.data a.effected_from.data with h | h
          · exact h
          · exact h
        · exact (List.pairwise_cons.mp hs₁).1 b hb
      have hle2 : pyStrLE b.effected_from a.effected_from = true := by
        rcases List.mem_cons.mp hab with ha | ha
        · rw [ha]
          rcases charListLE_total b.effected_from.data b.effected_from.data with h | h
          · exact h
          · exact h
        · exact (List.pairwise_cons.mp hs₂).1 a ha
      have heq : a = b := hdet a (by simp) b hba (pyStrLE_antisymm _ _ hle1 hle2)
      subst heq
      have ht : t₁.Perm t₂ := hp.cons_inv
      have hrec := sorted_perm_eq t₁ t₂ ht
        (List.pairwise_cons.mp hs₁).2 (List.pairwise_cons.mp hs₂).2
        (fun x hx y hy => hdet x (List.mem_cons_of_mem _ hx) y (List.mem_cons_of_mem _ hy))
      rw [hrec]

theorem groupOut_congr (rows₁ rows₂ : List Row) (hperm : rows₁.Perm rows₂)
    (hdet : ∀ a ∈ rows₁, ∀ b ∈ rows₁, groupKey a = groupKey b →
      a.effected_from = b.effected_from → a = b)
    (k : String × String × String × String) : groupOut rows₁ k = groupOut rows₂ k := by
  unfold groupOut calculate_obsolete_date
  have hfp : (groupRows rows₁ k).Perm (groupRows rows₂ k) := hperm.filter _
  have hsp : (sortByEff (groupRows rows₁ k)).Perm (sortByEff (groupRows rows₂ k)) :=
    (sortByEff_perm _).trans (hfp.trans (sortByEff_perm _).symm)
  have hkey : ∀ a ∈ sortByEff (groupRows rows₁ k), groupKey a = k := by
    intro a ha
    have h1 : a ∈ groupRows rows₁ k := (sortByEff_perm _).subset ha
    have := (List.mem_filter.mp h1).2
    simpa using this
  have heq : sortByEff (groupRows rows₁ k) = sortByEff (groupRows rows₂ k) := by
    apply sorted_perm_eq _ _ hsp (sortByEff_sorted _) (sortByEff_sorted _)
    intro a ha b hb heff
    have hmem : ∀ x ∈ sortByEff (groupRows rows₁ k), x ∈ rows₁ := by
      intro x hx
      exact (List.mem_filter.mp ((sortByEff_perm _).subset hx)).1
    exact hdet a (hmem a ha) b (hmem b hb) ((hkey a ha).trans (hkey b hb).symm) heff
  rw [heq]

theorem collectGroups_congr (rows₁ rows₂ : List Row)
    (h : ∀ k, groupOut rows₁ k = groupOut rows₂ k) :
    ∀ ks, collectGroups rows₁ ks = collectGroups rows₂ ks
  | [] => rfl
  | k :: ks => by
    simp only [collectGroups, h k, collectGroups_congr rows₁ rows₂ h ks]

theorem collectGroups_ok_of (rows : List Row) :
    ∀ ks, (∀ k ∈ ks, ∃ o, groupOut rows k = .ok o) →
      ∃ outs, collectGroups rows ks = .ok outs
  | [], _ => ⟨[], rfl⟩
  | k :: ks, hok => by
    obtain ⟨o, ho⟩ := hok k (by simp)
    obtain ⟨outs, houts⟩ := collectGroups_ok_of rows ks
      (fun k' hk' => hok k' (List.mem_cons_of_mem _ hk'))
    exact ⟨o :: outs, by simp [collectGroups, ho, houts]⟩

theorem collectGroups_error_overflow (rows : List Row) :
    ∀ ks, (∀ k ∈ ks, ∀ e, groupOut rows k = .error e → e = .overflowError) →
      (∃ k ∈ ks, ∃ e, groupOut rows k = .error e) →
      collectGroups rows ks = .error .overflowError
  | [], _, hex => by simp at hex
  | k :: ks, hall, hex => by
    cases hg : groupOut rows k with
    | error e =>
      have he := hall k (by simp) e hg
      subst he
      simp [collectGroups, hg]
    | ok o =>
      have hex' : ∃ k' ∈ ks, ∃ e, groupOut rows k' = .error e := by
        obtain ⟨k', hk', e, he⟩ := hex
        rcases List.mem_cons.mp hk' with hk' | hk'
        · subst hk'
          rw [hg] at he
          exact absurd he (by simp)
        · exact ⟨k', hk', e, he⟩
      have hrec := collectGroups_error_overflow rows ks
        (fun k' hk' => hall k' (List.mem_cons_of_mem _ hk')) hex'
      simp [collectGroups, hg, hrec]

/-- The output of the group `k` when it succeeds (`[]` on a date error). -/
def okGroup (rows : List Row) (k : String × String × String × String) : List RowOut :=
  match groupOut rows k with
  | .ok o => o
  | .error _ => []

theorem collectGroups_ok_eq (rows : List Row) :
    ∀ (ks : List (String × String × String × String)) outs,
      collectGroups rows ks = .ok outs → outs = ks.map (okGroup rows)
  | [], outs, h => by
    simp only [collectGroups, Except.ok.injEq] at h
    simp [← h]
  | k :: ks, outs, h => by
    simp only [collectGroups] at h
    cases hgo : groupOut rows k with
    | error e => simp [hgo] at h
    | ok o =>
      simp only [hgo] at h
      cases hcg : collectGroups rows ks with
      | error e => simp [hcg] at h
      | ok rest =>
        simp only [hcg, Except.ok.injEq] at h
        have := collectGroups_ok_eq rows ks rest hcg
        simp [← h, this, List.map_cons, okGroup, hgo]

/-! ## Concrete evaluation helper and sample data -/

/--
When the input list is already sorted by `effected_from`, sorting leaves
it unchanged; used to evaluate `sortByEff` on concrete inputs.
-/
theorem sortByEff_eq_self_of_sorted (l : List Row)
    (h : l.Pairwise (fun a b => pyStrLE a.effected_from b.effected_from = true)) :
    sortByEff l = l :=
  List.mergeSort_of_sorted h

/-- Sample record: group (A, X, M1, P1), effective 2023-01-01, price 10. -/
def sampleRow1 : Row := ⟨"001", "A", "X", "M1", "P1", 10, "20230101"⟩

/-- Sample record: same group as `sampleRow1`, effective 2023-06-01, price 12. -/
def sampleRow2 : Row := ⟨"002", "A", "X", "M1", "P1", 12, "20230601"⟩

/-- The two-record group of the worked example in the spec. -/
def sampleGroup : List Row := [sampleRow1, sampleRow2]

/-- The intervals the worked example expects for `sampleGroup`. -/
def sampleOut : List RowOut := [⟨sampleRow1, "20230531"⟩, ⟨sampleRow2, "99991231"⟩]

/-- Sample record sharing group and `effected_from` with `tiedRow2` but not price. -/
def tiedRow1 : Row := ⟨"001", "A", "X", "M1", "P1", 10, "20230101"⟩

/-- Sample record sharing group and `effected_from` with `tiedRow1` but not price. -/
def tiedRow2 : Row := ⟨"002", "A", "X", "M1", "P1", 12, "20230101"⟩

/-! ## Claims about the validity-interval calculator -/

/-- Record of one group at the minimal representable date 0001-01-01. -/
def minRow1 : Row := ⟨"001", "A", "X", "M1", "P1", 10, "00010101"⟩

/-- Second record of the same group, also at 0001-01-01. -/
def minRow2 : Row := ⟨"002", "A", "X", "M1", "P1", 12, "00010101"⟩

/--
Counterexample to C1 as stated: both records of one group carry the
well-formed date `00010101`; instead of assigning
`obsolete_date = effected_from(next) - 1 day`, the one-day subtraction
underflows `date.min` and the calculator raises (`OverflowError` in the
source), so no record of this well-formed input is assigned anything.
-/
theorem claim1_counterexample :
    parseDate "00010101" = some ⟨1, 1, 1⟩ ∧
    calculate_obsolete_date [minRow1, minRow2] = .error .overflowError := by
  refine ⟨by decide, ?_⟩
  unfold calculate_obsolete_date
  rw [sortByEff_eq_self_of_sorted _ (by decide)]
  decide

/--
Claim C1, as amended: for every group of well-formed dates in which no
record after the first of the sorted group falls on 0001-01-01 (where
the one-day subtraction overflows), the assignment is as the claim
states: a singleton group's record gets `obsolete_date = "99991231"`;
in a larger group, sorted ascending by `effected_from`, every non-last
record `i` gets the `effected_from` of record `i+1` minus one day,
formatted `YYYYMMDD`, and the last record gets `"99991231"`.
-/
theorem claim1_amended (group : List Row)
    (hvalid : ∀ r ∈ group, (parseDate r.effected_from).isSome)
    (hmin : ∀ r ∈ (sortByEff group).tail, parseDate r.effected_from ≠ some ⟨1, 1, 1⟩) :
    ∃ out, calculate_obsolete_date group = .ok out ∧
      out.map RowOut.base = sortByEff group ∧
      (∀ (i : Nat) (hi : i + 1 < out.length) (dt pd : Date),
        parseDate ((out.get ⟨i + 1, hi⟩).base.effected_from) = some dt →
        predDate dt = some pd →
        (out.get ⟨i, Nat.lt_of_succ_lt hi⟩).obsolete_date = formatDate pd) ∧
      (∀ hne : out ≠ [], (out.getLast hne).obsolete_date = "99991231") := by
  obtain ⟨out, hout⟩ := (assignObs_isOk_iff (sortByEff group)).mpr (by
    intro r hr
    have hs := hvalid r ((sortByEff_perm group).subset (List.mem_of_mem_tail hr))
    obtain ⟨dt, hp⟩ := Option.isSome_iff_exists.mp hs
    refine ⟨dt, hp, ?_⟩
    intro hdt
    exact hmin r hr (hdt ▸ hp))
  have hspec := assignObs_ok_obsolete (sortByEff group) out hout
  exact ⟨out, hout, assignObs_ok_map_base _ _ hout, hspec.1, hspec.2⟩

/-- Witness for the amended C1 at the spec's worked example. -/
theorem claim1_witness :
    ∃ out, calculate_obsolete_date sampleGroup = .ok out ∧
      out.map RowOut.base = sortByEff sampleGroup ∧
      (∀ (i : Nat) (hi : i + 1 < out.length) (dt pd : Date),
        parseDate ((out.get ⟨i + 1, hi⟩).base.effected_from) = some dt →
        predDate dt = some pd →
        (out.get ⟨i, Nat.lt_of_succ_lt hi⟩).obsolete_date = formatDate pd) ∧
      (∀ hne : out ≠ [], (out.getLast hne).obsolete_date = "99991231") :=
  claim1_amended sampleGroup (by decide)
    (by rw [sortByEff_eq_self_of_sorted sampleGroup (by decide)]; decide)

/--
Claim C2, as amended: the interval calculation is invariant under
permutation of the input — provided no two *distinct* records of one
group share an `effected_from` value (and dates are well-formed).  The
unamended claim fails: with a tie between two different records of one
group, the stable sort preserves their input order, so which record
gets closed and which gets the sentinel depends on the input order
(`claim2_counterexample`).
-/
theorem claim2_amended (rows₁ rows₂ : List Row) (hperm : rows₁.Perm rows₂)
    (hvalid : ∀ r ∈ rows₁, (parseDate r.effected_from).isSome)
    (hdet : ∀ a ∈ rows₁, ∀ b ∈ rows₁, groupKey a = groupKey b →
      a.effected_from = b.effected_from → a = b) :
    pipeline rows₁ = pipeline rows₂ := by
  have hgcong : ∀ k, groupOut rows₁ k = groupOut rows₂ k :=
    groupOut_congr rows₁ rows₂ hperm hdet
  have hksperm : ((rows₁.map groupKey).dedup).Perm ((rows₂.map groupKey).dedup) :=
    (hperm.map groupKey).dedup
  have hall : ∀ k e, groupOut rows₁ k = .error e → e = .overflowError := by
    intro k e he
    rcases assignObs_error_spec _ _ he with ⟨s, hes, hps, q, hq, hqs⟩ | ⟨hes, _⟩
    · exfalso
      have h1 : q ∈ sortByEff (groupRows rows₁ k) := List.mem_of_mem_tail hq
      have h2 : q ∈ rows₁ := (List.mem_filter.mp ((sortByEff_perm _).subset h1)).1
      have hs := hvalid q h2
      rw [hqs, hps] at hs
      simp at hs
    · exact hes
  by_cases hex : ∃ k ∈ (rows₁.map groupKey).dedup, ∃ e, groupOut rows₁ k = .error e
  · have h₁ := collectGroups_error_overflow rows₁ _ (fun k _ => hall k) hex
    have hex₂ : ∃ k ∈ (rows₂.map groupKey).dedup, ∃ e, groupOut rows₂ k = .error e := by
      obtain ⟨k, hk, e, he⟩ := hex
      exact ⟨k, hksperm.mem_iff.mp hk, e, ((hgcong k).symm).trans he⟩
    have h₂ := collectGroups_error_overflow rows₂ _
      (fun k _ e he => hall k e ((hgcong k).trans he)) hex₂
    simp only [pipeline, h₁, h₂]
  · push_neg at hex
    have hok₁ : ∀ k ∈ (rows₁.map groupKey).dedup, ∃ o, groupOut rows₁ k = .ok o := by
      intro k hk
      cases hg : groupOut rows₁ k with
      | error e => exact absurd hg (hex k hk e)
      | ok o => exact ⟨o, rfl⟩
    obtain ⟨outs₁, h₁⟩ := collectGroups_ok_of rows₁ _ hok₁
    have hok₂ : ∀ k ∈ (rows₂.map groupKey).dedup, ∃ o, groupOut rows₂ k = .ok o := by
      intro k hk
      obtain ⟨o, ho⟩ := hok₁ k (hksperm.mem_iff.mpr hk)
      exact ⟨o, ((hgcong k).symm).trans ho⟩
    obtain ⟨outs₂, h₂⟩ := collectGroups_ok_of rows₂ _ hok₂
    have h₂' : collectGroups rows₁ ((rows₂.map groupKey).dedup) = .ok outs₂ := by
      rw [collectGroups_congr rows₁ rows₂ hgcong]
      exact h₂
    have e₁ := collectGroups_ok_eq rows₁ _ outs₁ h₁
    have e₂ := collectGroups_ok_eq rows₁ _ outs₂ h₂'
    simp only [pipeline, h₁, h₂]
    congr 1
    rw [e₁, e₂, List.map_map, List.map_map]
    exact (hksperm.map _).sum_eq

/-- Witness for the amended C2 at a concrete two-record group. -/
theorem claim2_witness :
    pipeline [sampleRow1, sampleRow2] = pipeline [sampleRow2, sampleRow1] :=
  claim2_amended _ _ (by decide) (by decide) (by decide)

/--
Counterexample to C2 as stated: two records of one group with equal
`effected_from` but different prices; swapping the input order changes
which record receives the closed interval, so the output multisets
differ.
-/
theorem claim2_counterexample :
    ([tiedRow1, tiedRow2] : List Row).Perm [tiedRow2, tiedRow1] ∧
    pipeline [tiedRow1, tiedRow2] ≠ pipeline [tiedRow2, tiedRow1] := by
  have hs1 : sortByEff [tiedRow1, tiedRow2] = [tiedRow1, tiedRow2] :=
    sortByEff_eq_self_of_sorted _ (by decide)
  have hs2 : sortByEff [tiedRow2, tiedRow1] = [tiedRow2, tiedRow1] :=
    sortByEff_eq_self_of_sorted _ (by decide)
  have hc1 : calculate_obsolete_date [tiedRow1, tiedRow2] =
      .ok [⟨tiedRow1, "20221231"⟩, ⟨tiedRow2, "99991231"⟩] := by
    unfold calculate_obsolete_date
    rw [hs1]
    decide
  have hc2 : calculate_obsolete_date [tiedRow2, tiedRow1] =
      .ok [⟨tiedRow2, "20221231"⟩, ⟨tiedRow1, "99991231"⟩] := by
    unfold calculate_obsolete_date
    rw [hs2]
    decide
  have hk1 : (([tiedRow1, tiedRow2].map groupKey).dedup) = [("A", "X", "M1", "P1")] := by
    decide
  have hk2 : (([tiedRow2, tiedRow1].map groupKey).dedup) = [("A", "X", "M1", "P1")] := by
    decide
  have hg1 : groupRows [tiedRow1, tiedRow2] ("A", "X", "M1", "P1") = [tiedRow1, tiedRow2] := by
    decide
  have hg2 : groupRows [tiedRow2, tiedRow1] ("A", "X", "M1", "P1") = [tiedRow2, tiedRow1] := by
    decide
  have hp1 : pipeline [tiedRow1, tiedRow2] =
      .ok (↑[(⟨tiedRow1, "20221231"⟩ : RowOut), ⟨tiedRow2, "99991231"⟩] : Multiset RowOut) := by
    unfold pipeline
    rw [hk1]
    simp only [collectGroups, groupOut]
    rw [hg1, hc1]
    simp
  have hp2 : pipeline [tiedRow2, tiedRow1] =
      .ok (↑[(⟨tiedRow2, "20221231"⟩ : RowOut), ⟨tiedRow1, "99991231"⟩] : Multiset RowOut) := by
    unfold pipeline
    rw [hk2]
    simp only [collectGroups, groupOut]
    rw [hg2, hc2]
    simp
  refine ⟨by decide, ?_⟩
  rw [hp1, hp2]
  intro h
  simp only [Except.ok.injEq, Multiset.coe_eq_coe] at h
  exact absurd h (by decide)

/--
Claim C10: on success, `calculate_obsolete_date` preserves the number
of rows and the multiset of underlying records — every pre-existing
field of every record is unchanged; only the `obsolete_date` column is
added.
-/
theorem claim10_frame (group : List Row) (out : List RowOut)
    (h : calculate_obsolete_date group = .ok out) :
    out.length = group.length ∧ (out.map RowOut.base).Perm group := by
  have hbase := assignObs_ok_map_base _ _ h
  have hperm : (out.map RowOut.base).Perm group := hbase ▸ sortByEff_perm group
  have hlen : out.length = group.length := by
    have := hperm.length_eq
    simpa using this
  exact ⟨hlen, hperm⟩

/-- Witness for C10 at the worked example. -/
theorem claim10_witness :
    calculate_obsolete_date sampleGroup = .ok sampleOut ∧
    (sampleOut.length = sampleGroup.length ∧ (sampleOut.map RowOut.base).Perm sampleGroup) := by
  have hc : calculate_obsolete_date sampleGroup = .ok sampleOut := by
    unfold calculate_obsolete_date
    rw [sortByEff_eq_self_of_sorted sampleGroup (by decide)]
    decide
  exact ⟨hc, claim10_frame sampleGroup sampleOut hc⟩

/-! ## Claims about the code resolution engine -/

theorem missingSorted_mem (vals : List String) (d : List (String × String)) (v : String) :
    v ∈ missingSorted vals d ↔ v ∈ vals ∧ dictGet d v = none := by
  unfold missingSorted
  rw [List.mem_mergeSort, List.mem_dedup, List.mem_filter]
  constructor
  · rintro ⟨h1, h2⟩
    exact ⟨h1, by simpa using h2⟩
  · rintro ⟨h1, h2⟩
    exact ⟨h1, by simpa using h2⟩

theorem missingSorted_sorted (vals : List String) (d : List (String × String)) :
    (missingSorted vals d).Pairwise (fun a b => pyStrLE a b = true) := by
  unfold missingSorted
  apply List.sorted_mergeSort
  · exact fun a b c => charListLE_trans _ _ _
  · intro a b
    rcases charListLE_total a.data b.data with h | h
    · simp [pyStrLE, h]
    · simp [pyStrLE, h]

theorem missingSorted_nodup (vals : List String) (d : List (String × String)) :
    (missingSorted vals d).Nodup :=
  (List.mergeSort_perm _ pyStrLE).symm.nodup (List.nodup_dedup _)

theorem missingSorted_eq_nil (vals : List String) (d : List (String × String))
    (h : ∀ v ∈ vals, (dictGet d v).isSome) : missingSorted vals d = [] := by
  unfold missingSorted
  have hf : vals.filter (fun v => dictGet d v == none) = [] := by
    apply List.filter_eq_nil_iff.mpr
    intro v hv
    have hs := h v hv
    cases hq : dictGet d v with
    | none => rw [hq] at hs; simp at hs
    | some c => simp [hq]
  rw [hf]
  simp

/--
Claim C3: `map_dataframe_to_quotas` fails exactly when some label of the
batch has no entry in its domain's dictionary; the single error reports,
for each of the four domains, the sorted duplicate-free list of every
unresolved label of the whole batch (so all domains' gaps surface in one
raise, never just the first label encountered).
-/
theorem claim3_batch_validated (df : List RowOut)
    (d1 d2 d3 d4 : List (String × String)) (now : String) :
    ((∃ e, map_dataframe_to_quotas df d1 d2 d3 d4 now = .error e) ↔
      ∃ r ∈ df, dictGet d1 r.base.cat1 = none ∨ dictGet d2 r.base.cat2 = none ∨
        dictGet d3 r.base.model = none ∨ dictGet d4 r.base.process = none) ∧
    (∀ e, map_dataframe_to_quotas df d1 d2 d3 d4 now = .error e →
      (e.missing_cat1.Pairwise (fun a b => pyStrLE a b = true) ∧ e.missing_cat1.Nodup ∧
        ∀ v, (v ∈ e.missing_cat1 ↔ ∃ r ∈ df, r.base.cat1 = v ∧ dictGet d1 v = none)) ∧
      (e.missing_cat2.Pairwise (fun a b => pyStrLE a b = true) ∧ e.missing_cat2.Nodup ∧
        ∀ v, (v ∈ e.missing_cat2 ↔ ∃ r ∈ df, r.base.cat2 = v ∧ dictGet d2 v = none)) ∧
      (e.missing_model.Pairwise (fun a b => pyStrLE a b = true) ∧ e.missing_model.Nodup ∧
        ∀ v, (v ∈ e.missing_model ↔ ∃ r ∈ df, r.base.model = v ∧ dictGet d3 v = none)) ∧
      (e.missing_proc.Pairwise (fun a b => pyStrLE a b = true) ∧ e.missing_proc.Nodup ∧
        ∀ v, (v ∈ e.missing_proc ↔ ∃ r ∈ df, r.base.process = v ∧ dictGet d4 v = none))) := by
  constructor
  · constructor
    · rintro ⟨e, he⟩
      simp only [map_dataframe_to_quotas] at he
      by_cases hc : missingSorted (df.map fun r => r.base.cat1) d1 = [] ∧
          missingSorted (df.map fun r => r.base.cat2) d2 = [] ∧
          missingSorted (df.map fun r => r.base.model) d3 = [] ∧
          missingSorted (df.map fun r => r.base.process) d4 = []
      · rw [if_pos hc] at he
        exact absurd he (by simp)
      · have hor : missingSorted (df.map fun r => r.base.cat1) d1 ≠ [] ∨
            missingSorted (df.map fun r => r.base.cat2) d2 ≠ [] ∨
            missingSorted (df.map fun r => r.base.model) d3 ≠ [] ∨
            missingSorted (df.map fun r => r.base.process) d4 ≠ [] := by
          tauto
        rcases hor with hne | hne | hne | hne
        · obtain ⟨v, hv⟩ := List.exists_mem_of_ne_nil _ hne
          obtain ⟨hvm, hvn⟩ := (missingSorted_mem _ _ _).mp hv
          obtain ⟨r, hr, hre⟩ := List.mem_map.mp hvm
          exact ⟨r, hr, Or.inl (hre ▸ hvn)⟩
        · obtain ⟨v, hv⟩ := List.exists_mem_of_ne_nil _ hne
          obtain ⟨hvm, hvn⟩ := (missingSorted_mem _ _ _).mp hv
          obtain ⟨r, hr, hre⟩ := List.mem_map.mp hvm
          exact ⟨r, hr, Or.inr (Or.inl (hre ▸ hvn))⟩
        · obtain ⟨v, hv⟩ := List.exists_mem_of_ne_nil _ hne
          obtain ⟨hvm, hvn⟩ := (missingSorted_mem _ _ _).mp hv
          obtain ⟨r, hr, hre⟩ := List.mem_map.mp hvm
          exact ⟨r, hr, Or.inr (Or.inr (Or.inl (hre ▸ hvn)))⟩
        · obtain ⟨v, hv⟩ := List.exists_mem_of_ne_nil _ hne
          obtain ⟨hvm, hvn⟩ := (missingSorted_mem _ _ _).mp hv
          obtain ⟨r, hr, hre⟩ := List.mem_map.mp hvm
          exact ⟨r, hr, Or.inr (Or.inr (Or.inr (hre ▸ hvn)))⟩
    · rintro ⟨r, hr, hor⟩
      simp only [map_dataframe_to_quotas]
      have hcond : ¬ (missingSorted (df.map fun r => r.base.cat1) d1 = [] ∧
          missingSorted (df.map fun r => r.base.cat2) d2 = [] ∧
          missingSorted (df.map fun r => r.base.model) d3 = [] ∧
          missingSorted (df.map fun r => r.base.process) d4 = []) := by
        rcases hor with hn | hn | hn | hn
        · intro hc
          have : r.base.cat1 ∈ missingSorted (df.map fun r => r.base.cat1) d1 :=
            (missingSorted_mem _ _ _).mpr ⟨List.mem_map.mpr ⟨r, hr, rfl⟩, hn⟩
          rw [hc.1] at this
          simp at this
        · intro hc
          have : r.base.cat2 ∈ missingSorted (df.map fun r => r.base.cat2) d2 :=
            (missingSorted_mem _ _ _).mpr ⟨List.mem_map.mpr ⟨r, hr, rfl⟩, hn⟩
          rw [hc.2.1] at this
          simp at this
        · intro hc
          have : r.base.model ∈ missingSorted (df.map fun r => r.base.model) d3 :=
            (missingSorted_mem _ _ _).mpr ⟨List.mem_map.mpr ⟨r, hr, rfl⟩, hn⟩
          rw [hc.2.2.1] at this
          simp at this
        · intro hc
          have : r.base.process ∈ missingSorted (df.map fun r => r.base.process) d4 :=
            (missingSorted_mem _ _ _).mpr ⟨List.mem_map.mpr ⟨r, hr, rfl⟩, hn⟩
          rw [hc.2.2.2] at this
          simp at this
      rw [if_neg hcond]
      exact ⟨_, rfl⟩
  · intro e he
    simp only [map_dataframe_to_quotas] at he
    by_cases hc : missingSorted (df.map fun r => r.base.cat1) d1 = [] ∧
        missingSorted (df.map fun r => r.base.cat2) d2 = [] ∧
        missingSorted (df.map fun r => r.base.model) d3 = [] ∧
        missingSorted (df.map fun r => r.base.process) d4 = []
    · rw [if_pos hc] at he
      exact absurd he (by simp)
    · rw [if_neg hc] at he
      simp only [Except.error.injEq] at he
      subst he
      refine ⟨⟨missingSorted_sorted _ _, missingSorted_nodup _ _, ?_⟩,
        ⟨missingSorted_sorted _ _, missingSorted_nodup _ _, ?_⟩,
        ⟨missingSorted_sorted _ _, missingSorted_nodup _ _, ?_⟩,
        ⟨missingSorted_sorted _ _, missingSorted_nodup _ _, ?_⟩⟩
      · intro v
        rw [missingSorted_mem]
        constructor
        · rintro ⟨hv, hn⟩
          obtain ⟨r, hr, hre⟩ := List.mem_map.mp hv
          exact ⟨r, hr, hre, hn⟩
        · rintro ⟨r, hr, hre, hn⟩
          exact ⟨List.mem_map.mpr ⟨r, hr, hre⟩, hn⟩
      · intro v
        rw [missingSorted_mem]
        constructor
        · rintro ⟨hv, hn⟩
          obtain ⟨r, hr, hre⟩ := List.mem_map.mp hv
          exact ⟨r, hr, hre, hn⟩
        · rintro ⟨r, hr, hre, hn⟩
          exact ⟨List.mem_map.mpr ⟨r, hr, hre⟩, hn⟩
      · intro v
        rw [missingSorted_mem]
        constructor
        · rintro ⟨hv, hn⟩
          obtain ⟨r, hr, hre⟩ := List.mem_map.mp hv
          exact ⟨r, hr, hre, hn⟩
        · rintro ⟨r, hr, hre, hn⟩
          exact ⟨List.mem_map.mpr ⟨r, hr, hre⟩, hn⟩
      · intro v
        rw [missingSorted_mem]
        constructor
        · rintro ⟨hv, hn⟩
          obtain ⟨r, hr, hre⟩ := List.mem_map.mp hv
          exact ⟨r, hr, hre, hn⟩
        · rintro ⟨r, hr, hre, hn⟩
          exact ⟨List.mem_map.mpr ⟨r, hr, hre⟩, hn⟩

/-- The spec's example batch: one record whose category-1 label is 装配. -/
def unresolvedRow : RowOut := ⟨⟨"001", "装配", "X", "M", "P", 10, "20230101"⟩, "99991231"⟩

/-- Witness for C3 at the spec's example: dictionary {机加: C01}, label 装配. -/
theorem claim3_witness :
    ∃ e, map_dataframe_to_quotas [unresolvedRow] [("机加", "C01")]
      [("X", "X1")] [("M", "M1")] [("P", "P1")] "t" = .error e :=
  (claim3_batch_validated [unresolvedRow] [("机加", "C01")]
      [("X", "X1")] [("M", "M1")] [("P", "P1")] "t").1.mpr
    ⟨unresolvedRow, by decide, Or.inl (by decide)⟩

theorem duplicatedNames_eq_nil_iff (rows : List DictTableRow) :
    duplicatedNames rows = [] ↔ (rows.map fun r => r.name).Nodup := by
  unfold duplicatedNames
  constructor
  · intro h
    rw [List.nodup_iff_count_le_one]
    intro n
    by_contra hc
    push_neg at hc
    have hn : n ∈ (rows.map fun r => r.name) := List.count_pos_iff.mp (by omega)
    have hmem : n ∈ ((rows.map fun r => r.name).filter
        (fun n => 2 ≤ (rows.map fun r => r.name).count n)).dedup := by
      rw [List.mem_dedup, List.mem_filter]
      exact ⟨hn, by simpa using hc⟩
    rw [h] at hmem
    simp at hmem
  · intro h
    rw [List.nodup_iff_count_le_one] at h
    rw [List.eq_nil_iff_forall_not_mem]
    intro n hmem
    rw [List.mem_dedup, List.mem_filter] at hmem
    have := h n
    have h2 := hmem.2
    simp only [decide_eq_true_eq] at h2
    omega

theorem get_code_dict_ok_nodup (rows : List DictTableRow) (d : List (String × String))
    (h : get_code_dict rows = .ok d) : (rows.map fun r => r.name).Nodup := by
  simp only [get_code_dict] at h
  by_cases he : rows.isEmpty = true
  · simp [he] at h
  · rw [if_neg he] at h
    by_cases hd : (duplicatedNames rows).isEmpty = true
    · exact (duplicatedNames_eq_nil_iff rows).mp (List.isEmpty_iff.mp hd)
    · rw [if_neg hd] at h
      exact absurd h (by simp)

/--
Claim C4: a reference table mapping one name from two or more rows makes
the dictionary loading of `main` fail with a dictionary-integrity error
whose value does not depend on the quota records at all — the failure
happens at load time, before any record resolution is attempted; this
holds for each of the four domains.
-/
theorem claim4_dict_integrity (t1 t2 t3 t4 : List DictTableRow)
    (h : ¬ (t1.map fun r => r.name).Nodup ∨ ¬ (t2.map fun r => r.name).Nodup ∨
      ¬ (t3.map fun r => r.name).Nodup ∨ ¬ (t4.map fun r => r.name).Nodup) :
    ∃ e, PipeError.isDictLoad e = true ∧
      ∀ (df : List RowOut) (now : String),
        main_resolve df t1 t2 t3 t4 now = .error e := by
  cases hg1 : get_code_dict t1 with
  | error e => exact ⟨.cat1Dict e, rfl, fun df now => by simp [main_resolve, hg1]⟩
  | ok d1 =>
    cases hg2 : get_code_dict t2 with
    | error e => exact ⟨.cat2Dict e, rfl, fun df now => by simp [main_resolve, hg1, hg2]⟩
    | ok d2 =>
      cases hg3 : get_code_dict t3 with
      | error e =>
        exact ⟨.modelDict e, rfl, fun df now => by simp [main_resolve, hg1, hg2, hg3]⟩
      | ok d3 =>
        cases hg4 : get_code_dict t4 with
        | error e =>
          exact ⟨.procDict e, rfl, fun df now => by
            simp [main_resolve, hg1, hg2, hg3, hg4]⟩
        | ok d4 =>
          exfalso
          rcases h with h | h | h | h
          · exact h (get_code_dict_ok_nodup t1 d1 hg1)
          · exact h (get_code_dict_ok_nodup t2 d2 hg2)
          · exact h (get_code_dict_ok_nodup t3 d3 hg3)
          · exact h (get_code_dict_ok_nodup t4 d4 hg4)

/-- A reference table mapping the name 机加 from two rows. -/
def dupTable : List DictTableRow := [⟨"C1", "机加"⟩, ⟨"C2", "机加"⟩]

/-- A well-formed one-row reference table. -/
def okTable : List DictTableRow := [⟨"C1", "机加"⟩]

/-- Witness for C4: a duplicated name in the category-1 table. -/
theorem claim4_witness :
    ∃ e, PipeError.isDictLoad e = true ∧
      ∀ (df : List RowOut) (now : String),
        main_resolve df dupTable okTable okTable okTable now = .error e :=
  claim4_dict_integrity dupTable okTable okTable okTable (Or.inl (by decide))

theorem dictGet_roundtrip (d : List (String × String))
    (hinj : (d.map Prod.snd).Nodup) (k v : String)
    (h : dictGet d k = some v) : reverseGet d v = some k := by
  unfold dictGet at h
  cases hf : d.find? (fun p => p.1 == k) with
  | none => rw [hf] at h; simp at h
  | some p =>
    rw [hf] at h
    have hp1 : p.1 = k := by
      have := List.find?_some hf
      simpa using this
    have hpmem : p ∈ d := List.mem_of_find?_eq_some hf
    have hp2 : p.2 = v := by simpa using h
    unfold reverseGet
    have hsome : (d.reverse.find? (fun q => q.2 == v)).isSome := by
      rw [List.find?_isSome]
      exact ⟨p, List.mem_reverse.mpr hpmem, by simp [hp2]⟩
    obtain ⟨q, hfq⟩ := Option.isSome_iff_exists.mp hsome
    have hq2 : q.2 = v := by
      have := List.find?_some hfq
      simpa using this
    have hqmem : q ∈ d := List.mem_reverse.mp (List.mem_of_find?_eq_some hfq)
    have hqp : q = p := List.inj_on_of_nodup_map hinj hqmem hpmem (by rw [hq2, hp2])
    rw [hfq]
    simp [hqp, hp1]

/--
Claim C5, as amended: when every dictionary is injective (no two names
share a code), a batch that resolves without error round-trips — each
row's resolved code, mapped back through the reversed `{code: name}`
dict, reproduces the row's original label, in all four domains.  The
unamended claim fails: the loader only rejects duplicate *names*, so two
names may share one code, and reversal then returns the later name for
both (`claim5_counterexample`).
-/
theorem claim5_roundtrip (df : List RowOut) (d1 d2 d3 d4 : List (String × String))
    (now : String) (out : List QuotasRow)
    (h1 : (d1.map Prod.snd).Nodup) (h2 : (d2.map Prod.snd).Nodup)
    (h3 : (d3.map Prod.snd).Nodup) (h4 : (d4.map Prod.snd).Nodup)
    (hok : map_dataframe_to_quotas df d1 d2 d3 d4 now = .ok out) :
    out = df.map (resolveRow d1 d2 d3 d4 now) ∧
    ∀ r ∈ df,
      (∃ c, dictGet d1 r.base.cat1 = some c ∧ reverseGet d1 c = some r.base.cat1) ∧
      (∃ c, dictGet d2 r.base.cat2 = some c ∧ reverseGet d2 c = some r.base.cat2) ∧
      (∃ c, dictGet d3 r.base.model = some c ∧ reverseGet d3 c = some r.base.model) ∧
      (∃ c, dictGet d4 r.base.process = some c ∧ reverseGet d4 c = some r.base.process) := by
  simp only [map_dataframe_to_quotas] at hok
  by_cases hc : missingSorted (df.map fun r => r.base.cat1) d1 = [] ∧
      missingSorted (df.map fun r => r.base.cat2) d2 = [] ∧
      missingSorted (df.map fun r => r.base.model) d3 = [] ∧
      missingSorted (df.map fun r => r.base.process) d4 = []
  · rw [if_pos hc] at hok
    simp only [Except.ok.injEq] at hok
    refine ⟨hok.symm, ?_⟩
    intro r hr
    refine ⟨?_, ?_, ?_, ?_⟩
    · cases hq : dictGet d1 r.base.cat1 with
      | none =>
        exfalso
        have : r.base.cat1 ∈ missingSorted (df.map fun r => r.base.cat1) d1 :=
          (missingSorted_mem _ _ _).mpr ⟨List.mem_map.mpr ⟨r, hr, rfl⟩, hq⟩
        rw [hc.1] at this
        simp at this
      | some c => exact ⟨c, rfl, dictGet_roundtrip d1 h1 _ c hq⟩
    · cases hq : dictGet d2 r.base.cat2 with
      | none =>
        exfalso
        have : r.base.cat2 ∈ missingSorted (df.map fun r => r.base.cat2) d2 :=
          (missingSorted_mem _ _ _).mpr ⟨List.mem_map.mpr ⟨r, hr, rfl⟩, hq⟩
        rw [hc.2.1] at this
        simp at this
      | some c => exact ⟨c, rfl, dictGet_roundtrip d2 h2 _ c hq⟩
    · cases hq : dictGet d3 r.base.model with
      | none =>
        exfalso
        have : r.base.model ∈ missingSorted (df.map fun r => r.base.model) d3 :=
          (missingSorted_mem _ _ _).mpr ⟨List.mem_map.mpr ⟨r, hr, rfl⟩, hq⟩
        rw [hc.2.2.1] at this
        simp at this
      | some c => exact ⟨c, rfl, dictGet_roundtrip d3 h3 _ c hq⟩
    · cases hq : dictGet d4 r.base.process with
      | none =>
        exfalso
        have : r.base.process ∈ missingSorted (df.map fun r => r.base.process) d4 :=
          (missingSorted_mem _ _ _).mpr ⟨List.mem_map.mpr ⟨r, hr, rfl⟩, hq⟩
        rw [hc.2.2.2] at this
        simp at this
      | some c => exact ⟨c, rfl, dictGet_roundtrip d4 h4 _ c hq⟩
  · rw [if_neg hc] at hok
    exact absurd hok (by simp)

/-- A dictionary in which the names `a` and `b` both map to the code `C1`. -/
def sharedCodeDict : List (String × String) := [("a", "C1"), ("b", "C1")]

/-- A batch row labelled `a` in category 1 (resolving through `sharedCodeDict`). -/
def sharedCodeRow : RowOut := ⟨⟨"001", "a", "X", "M", "P", 10, "20230101"⟩, "99991231"⟩

/--
Counterexample to C5 as stated: the batch `[sharedCodeRow]` resolves
without error, its category-1 label `a` resolves to code `C1`, but the
reversed dictionary maps `C1` back to `b`, not to the original label.
-/
theorem claim5_counterexample :
    map_dataframe_to_quotas [sharedCodeRow] sharedCodeDict
        [("X", "X1")] [("M", "M1")] [("P", "P1")] "t" =
      .ok [⟨some "C1", some "X1", some "M1", some "P1", 10, "20230101", "99991231", 1, "t"⟩] ∧
    reverseGet sharedCodeDict "C1" = some "b" ∧ ("b" : String) ≠ "a" := by
  refine ⟨?_, by decide, by decide⟩
  have hm1 := missingSorted_eq_nil ([sharedCodeRow].map fun r => r.base.cat1)
    sharedCodeDict (by decide)
  have hm2 := missingSorted_eq_nil ([sharedCodeRow].map fun r => r.base.cat2)
    [("X", "X1")] (by decide)
  have hm3 := missingSorted_eq_nil ([sharedCodeRow].map fun r => r.base.model)
    [("M", "M1")] (by decide)
  have hm4 := missingSorted_eq_nil ([sharedCodeRow].map fun r => r.base.process)
    [("P", "P1")] (by decide)
  simp only [map_dataframe_to_quotas, hm1, hm2, hm3, hm4, and_self, if_true]
  decide

/-- An injective category-1 dictionary for the C5 witness. -/
def injDict1 : List (String × String) := [("a", "C1"), ("b", "C2")]

/-- Witness for the amended C5 at a one-row batch over injective dictionaries. -/
theorem claim5_witness :
    [⟨some "C1", some "X1", some "M1", some "P1", 10, "20230101", "99991231", 1, "t"⟩] =
      [sharedCodeRow].map (resolveRow injDict1 [("X", "X1")] [("M", "M1")] [("P", "P1")] "t") ∧
    ∀ r ∈ [sharedCodeRow],
      (∃ c, dictGet injDict1 r.base.cat1 = some c ∧
        reverseGet injDict1 c = some r.base.cat1) ∧
      (∃ c, dictGet [("X", "X1")] r.base.cat2 = some c ∧
        reverseGet [("X", "X1")] c = some r.base.cat2) ∧
      (∃ c, dictGet [("M", "M1")] r.base.model = some c ∧
        reverseGet [("M", "M1")] c = some r.base.model) ∧
      (∃ c, dictGet [("P", "P1")] r.base.process = some c ∧
        reverseGet [("P", "P1")] c = some r.base.process) := by
  have hm1 := missingSorted_eq_nil ([sharedCodeRow].map fun r => r.base.cat1)
    injDict1 (by decide)
  have hm2 := missingSorted_eq_nil ([sharedCodeRow].map fun r => r.base.cat2)
    [("X", "X1")] (by decide)
  have hm3 := missingSorted_eq_nil ([sharedCodeRow].map fun r => r.base.model)
    [("M", "M1")] (by decide)
  have hm4 := missingSorted_eq_nil ([sharedCodeRow].map fun r => r.base.process)
    [("P", "P1")] (by decide)
  have hok : map_dataframe_to_quotas [sharedCodeRow] injDict1
      [("X", "X1")] [("M", "M1")] [("P", "P1")] "t" =
      .ok [⟨some "C1", some "X1", some "M1", some "P1", 10, "20230101", "99991231", 1, "t"⟩] := by
    simp only [map_dataframe_to_quotas, hm1, hm2, hm3, hm4, and_self, if_true]
    decide
  exact claim5_roundtrip [sharedCodeRow] injDict1 [("X", "X1")] [("M", "M1")] [("P", "P1")]
    "t" _ (by decide) (by decide) (by decide) (by decide) hok

/-! ## Claims about the report builder's orderings and sheet names -/

/--
Claim C7: the row-ordering key of a model code is the Python `int` of
the substring before the first hyphen when it parses, and `0` otherwise
— a total fallback, never an error.
-/
theorem claim7_model_sort_key :
    get_model_sort_key "100-2" = 100 ∧ get_model_sort_key "63-1" = 63 ∧
    get_model_sort_key "999" = 999 ∧ get_model_sort_key "abc" = 0 ∧
    (∀ (s : String) (n : Int), pyInt (headBeforeHyphen s) = some n →
      get_model_sort_key s = n) ∧
    (∀ s : String, pyInt (headBeforeHyphen s) = none → get_model_sort_key s = 0) := by
  refine ⟨by decide, by decide, by decide, by decide, ?_, ?_⟩
  · intro s n h
    unfold get_model_sort_key
    rw [h]
  · intro s h
    unfold get_model_sort_key
    rw [h]

/-- Witness for C7 at a fresh concrete model code. -/
theorem claim7_witness :
    pyInt (headBeforeHyphen "7-x") = some 7 ∧ get_model_sort_key "7-x" = 7 :=
  ⟨by decide, claim7_model_sort_key.2.2.2.2.1 "7-x" 7 (by decide)⟩

/--
Claim C6: with no column-sequence table the column key is the raw
process code (and keys compare as the codes do); with a table, the key
is the sequence under (cat1 name, cat2 name, process name), else under
(cat1 name, cat2 name, process code), else the maximal key, which
compares after every key — absent columns sort to the end.
-/
theorem claim6_process_order :
    (∀ (c c1 c2 n : String), get_process_sort_key c c1 c2 n none = .byCode c) ∧
    (∀ (a b : String), procKeyLE (.byCode a) (.byCode b) = pyStrLE a b) ∧
    (∀ (d : List ((String × String × String) × Int)) (c c1 c2 n : String) (s : Int),
      seqGet d (c1, c2, n) = some s →
      get_process_sort_key c c1 c2 n (some d) = .bySeq s) ∧
    (∀ (d : List ((String × String × String) × Int)) (c c1 c2 n : String) (s : Int),
      seqGet d (c1, c2, n) = none → seqGet d (c1, c2, c) = some s →
      get_process_sort_key c c1 c2 n (some d) = .bySeq s) ∧
    (∀ (d : List ((String × String × String) × Int)) (c c1 c2 n : String),
      seqGet d (c1, c2, n) = none → seqGet d (c1, c2, c) = none →
      get_process_sort_key c c1 c2 n (some d) = .atEnd) ∧
    (∀ k : ProcKey, procKeyLE k .atEnd = true) ∧
    (∀ s : Int, procKeyLE .atEnd (.bySeq s) = false) := by
  refine ⟨fun c c1 c2 n => rfl, fun a b => rfl, ?_, ?_, ?_, ?_, fun s => rfl⟩
  · intro d c c1 c2 n s h
    simp [get_process_sort_key, h]
  · intro d c c1 c2 n s h1 h2
    simp [get_process_sort_key, h1, h2]
  · intro d c c1 c2 n h1 h2
    simp [get_process_sort_key, h1, h2]
  · intro k
    cases k with
    | byCode a => rfl
    | bySeq n => rfl
    | atEnd => rfl

/-- A one-entry column-sequence table keyed by names. -/
def seqTable : List ((String × String × String) × Int) := [(("甲", "乙", "钻孔"), 5)]

/-- Witness for C6: a listed column gets its sequence, an absent one the maximal key. -/
theorem claim6_witness :
    get_process_sort_key "P9" "甲" "乙" "钻孔" (some seqTable) = .bySeq 5 ∧
    get_process_sort_key "P9" "甲" "乙" "铣面" (some seqTable) = .atEnd :=
  ⟨claim6_process_order.2.2.1 seqTable "P9" "甲" "乙" "钻孔" 5 (by decide),
   claim6_process_order.2.2.2.2.1 seqTable "P9" "甲" "乙" "铣面" (by decide) (by decide)⟩

/--
Claim C9: for every input, the sanitized sheet name contains none of the
characters forbidden by Excel, is at most 31 characters long, and is
never empty (the fixed name `Sheet` is substituted when nothing is
left).
-/
theorem claim9_sanitize (s : String) :
    (∀ c ∈ (sanitize_sheet_name s).data, c ∉ invalidSheetChars) ∧
    (sanitize_sheet_name s).length ≤ 31 ∧ sanitize_sheet_name s ≠ "" := by
  simp only [sanitize_sheet_name]
  by_cases he :
      ((pyStrip (s.data.filter (fun c => !(invalidSheetChars.contains c)))).take 31).isEmpty = true
  · rw [if_pos he]
    exact ⟨by decide, by decide, by decide⟩
  · rw [if_neg he]
    refine ⟨?_, ?_, ?_⟩
    · intro c hc
      have hc' : c ∈ (pyStrip (s.data.filter (fun c => !(invalidSheetChars.contains c)))).take 31 :=
        hc
      have h2 : c ∈ pyStrip (s.data.filter (fun c => !(invalidSheetChars.contains c))) :=
        List.mem_of_mem_take hc'
      have h3 : c ∈ s.data.filter (fun c => !(invalidSheetChars.contains c)) := by
        unfold pyStrip at h2
        have s1 := List.mem_reverse.mp h2
        have s2 := (List.dropWhile_sublist _).subset s1
        have s3 := List.mem_reverse.mp s2
        exact (List.dropWhile_sublist _).subset s3
      have h4 := List.of_mem_filter h3
      simpa using h4
    · show (String.mk _).length ≤ 31
      have hl : ((pyStrip (s.data.filter (fun c => !(invalidSheetChars.contains c)))).take 31).length ≤ 31 := by
        rw [List.length_take]
        omega
      exact hl
    · intro hcontra
      have hdata := congrArg String.data hcontra
      apply he
      simp only [List.isEmpty_iff]
      exact hdata

/-- Witness for C9 at a name containing every forbidden character and overlong text. -/
theorem claim9_witness :
    (∀ c ∈ (sanitize_sheet_name "a\\b/c?d*e[f]g: a very long sheet name indeed").data,
      c ∉ invalidSheetChars) ∧
    (sanitize_sheet_name "a\\b/c?d*e[f]g: a very long sheet name indeed").length ≤ 31 ∧
    sanitize_sheet_name "a\\b/c?d*e[f]g: a very long sheet name indeed" ≠ "" :=
  claim9_sanitize "a\\b/c?d*e[f]g: a very long sheet name indeed"
